import Mathlib

/-!
Shallow embedding of the dropbox-mcp core in Lean 4, with theorems checking
the natural-language specification against the code.

Modelling conventions:
- Go strings that carry byte content are modelled as `List Nat` (a Go string
  is a byte sequence); identifier-like strings (paths, tokens, modes) are
  modelled as Lean `String`.
- `time.Time` values are modelled as `Option Int` where `none` models the
  zero time (`IsZero`) and `some t` an absolute instant; durations are `Int`
  in nanoseconds, as in Go's `time.Duration`.
- Network effects (HTTP calls, channels) are modelled by explicit outcome
  data: the OAuth callback handler becomes a pure function from the request
  to an outcome, the three-way select becomes a function on the first
  arriving event, and the chunked upload loop records the append/finish
  calls it issues, with append outcomes supplied by an oracle.
-/

namespace DropboxMCP

/-! ## Definitions -/

/-! ### Token store — internal/config/config.go -/

/-- Embedding of `config.Config` (internal/config/config.go, lines 11-17).
`expiresAt = none` models the zero `time.Time`. -/
structure Config where
  clientID : String
  clientSecret : String
  accessToken : String
  refreshToken : String
  expiresAt : Option Int
deriving Repr, DecidableEq

/-- `5 * time.Minute` in nanoseconds, as used in `NeedsRefresh`. -/
def fiveMinutes : Int := 5 * 60 * 1000000000

/-- Embedding of `(*Config).IsTokenValid` (config.go lines 72-80).
`now` is the current instant (`time.Now()`). -/
def Config.IsTokenValid (c : Config) (now : Int) : Bool :=
  if c.accessToken = "" then false
  else
    match c.expiresAt with
    | none => true
    | some e => decide (now < e)

/-- Embedding of `(*Config).NeedsRefresh` (config.go lines 82-90).
`time.Now().Add(5*time.Minute).After(c.ExpiresAt)` is `now + fiveMinutes > e`. -/
def Config.NeedsRefresh (c : Config) (now : Int) : Bool :=
  if c.refreshToken = "" then false
  else
    match c.expiresAt with
    | none => false
    | some e => decide (e < now + fiveMinutes)

/-- Embedding of `(*Config).UpdateTokens` (config.go lines 92-98):
overwrites access token and expiry, overwrites the refresh token only when
the new value is non-empty, and touches nothing else. -/
def Config.UpdateTokens (c : Config) (accessToken refreshToken : String)
    (expiresAt : Option Int) : Config :=
  { c with
    accessToken := accessToken
    refreshToken := if refreshToken ≠ "" then refreshToken else c.refreshToken
    expiresAt := expiresAt }

/-! ### Authorization flow — internal/auth/auth.go, `StartOAuthFlow` -/

/-- Embedding of `auth.AuthResult` (auth.go lines 125-129). -/
structure AuthResult where
  accessToken : String
  refreshToken : String
  expiresAt : Option Int
deriving Repr, DecidableEq

/-- A callback HTTP request as seen by the handler in `StartOAuthFlow`
(auth.go lines 174-230): the URL path and the `state`, `code`, `error` and
`error_description` query parameters. `r.URL.Query().Get` returns `""` for an
absent parameter, so absent parameters are modelled as `""`. -/
structure CallbackRequest where
  path : String
  state : String
  code : String
  errorText : String
  errorDescription : String
deriving Repr, DecidableEq

/-- What the callback handler decides to do with a request, before any
network effect: reject with not-found, reject with a state mismatch, reject
with an authorization failure carrying the provider's error text, or proceed
to the token exchange with the received code. -/
inductive CallbackOutcome where
  | notFound
  | stateMismatch
  | authFailure (msg : String)
  | exchange (code : String)
deriving Repr, DecidableEq

/-- Embedding of the callback handler's control flow (auth.go lines 174-199):
non-`/callback` paths get not-found; a `state` differing from the generated
state is a state mismatch; an empty `code` is an authorization failure whose
message is `error_description` when non-empty, else `error`; otherwise the
handler proceeds to exchange the code. -/
def handleCallback (generatedState : String) (r : CallbackRequest) : CallbackOutcome :=
  if r.path ≠ "/callback" then .notFound
  else if r.state ≠ generatedState then .stateMismatch
  else if r.code = "" then
    .authFailure (if r.errorDescription ≠ "" then r.errorDescription else r.errorText)
  else .exchange r.code

/-- HTTP status written by the handler before reaching the token exchange:
404 for not-found, 400 (`http.StatusBadRequest`) for a state mismatch or an
authorization failure; `none` when the handler proceeds to the exchange (the
status then depends on the exchange result). -/
def CallbackOutcome.httpStatus : CallbackOutcome → Option Nat
  | .notFound => some 404
  | .stateMismatch => some 400
  | .authFailure _ => some 400
  | .exchange _ => none

/-- Whether the handler performs the token exchange (`oauth2Config.Exchange`). -/
def CallbackOutcome.performsExchange : CallbackOutcome → Bool
  | .exchange _ => true
  | _ => false

/-- A status code in the 4xx client-error class. -/
def isClientError (status : Nat) : Bool :=
  decide (400 ≤ status ∧ status < 500)

/-- The first event to arrive at the three-way `select` in `StartOAuthFlow`
(auth.go lines 243-253): a result delivered on `resultChan`, an error
delivered on `errorChan`, or the 5-minute timer firing. -/
inductive FlowEvent where
  | success (r : AuthResult)
  | failure (msg : String)
  | timeout
deriving Repr, DecidableEq

/-- What `StartOAuthFlow` does after the wait: the value it returns and
whether the listener is closed before returning. -/
structure FlowReturn where
  result : Except String AuthResult
  listenerClosed : Bool
deriving Repr

/-- Embedding of the `select` in `StartOAuthFlow` (auth.go lines 243-253) as a
function of the first arriving event (first-arrival-wins): each branch closes
the server (and the deferred `listener.Close()` at line 149 also runs on
every return path) and then returns the branch's value; the timeout branch
returns the "authentication timeout" error. -/
def awaitFlowOutcome : FlowEvent → FlowReturn
  | .success r => { result := .ok r, listenerClosed := true }
  | .failure msg => { result := .error msg, listenerClosed := true }
  | .timeout => { result := .error "authentication timeout", listenerClosed := true }

/-! ### Chunked upload engine — internal/dropbox client, `uploadLarge` -/

/-- The fixed chunk size, `4 * 1024 * 1024` bytes (`uploadLarge`, line 163). -/
def chunkSize : Nat := 4 * 1024 * 1024

/-- One `UploadSessionAppendV2` call: the cursor offset it declares and the
bytes it carries. -/
structure AppendCall where
  offset : Nat
  chunk : List Nat
deriving Repr, DecidableEq

/-- The observable behaviour of one chunked upload: the append calls issued
in order, the offset declared by the `UploadSessionFinish` call (`none` when
no finish call is made), and the value returned to the caller. -/
structure ChunkedRun where
  appends : List AppendCall
  finishOffset : Option Nat
  result : Except String Unit
deriving Repr

/-- Embedding of the read/append loop of `uploadLarge` (lines 172-198).
`bytes.Reader.Read` fills the 4 MiB buffer with `min chunkSize remaining`
bytes and reports `io.EOF` on an empty source, so each iteration takes
`chunkSize` bytes off the front of the remaining data.  `appendOk i` is the
oracle saying whether the `i`-th `UploadSessionAppendV2` network call
succeeds; on failure the loop returns the wrapped append error immediately,
issuing no further appends and no finish call.  On end of source the finish
call declares the accumulated offset. -/
def uploadLoop (appendOk : Nat → Bool) (i off : Nat) : List Nat → ChunkedRun
  | [] => { appends := [], finishOffset := some off, result := .ok () }
  | b :: rest =>
    let c := (b :: rest).take chunkSize
    if appendOk i then
      let r := uploadLoop appendOk (i + 1) (off + c.length) ((b :: rest).drop chunkSize)
      { r with appends := ⟨off, c⟩ :: r.appends }
    else
      { appends := [⟨off, c⟩], finishOffset := none,
        result := .error "failed to append chunk" }
termination_by rem => rem.length
decreasing_by
  simp only [List.length_drop, List.length_cons, chunkSize]
  omega

/-- `uploadLarge` with an oracle for append outcomes: the session starts with
an empty chunk, then the loop runs from offset 0 with chunk index 0. -/
def runChunked (appendOk : Nat → Bool) (data : List Nat) : ChunkedRun :=
  uploadLoop appendOk 0 0 data

/-- The failure-free run of `uploadLarge` (lines 162-199): every append call
succeeds. -/
def uploadLarge (data : List Nat) : ChunkedRun :=
  runChunked (fun _ => true) data

/-! ### Upload content heuristic and commit construction — `Upload` -/

/-- The value of a byte in Go's standard base64 alphabet
(`A`-`Z`, `a`-`z`, `0`-`9`, `+`, `/`), or `none` for any other byte. -/
def b64Val (b : Nat) : Option Nat :=
  if 65 ≤ b ∧ b ≤ 90 then some (b - 65)
  else if 97 ≤ b ∧ b ≤ 122 then some (b - 97 + 26)
  else if 48 ≤ b ∧ b ≤ 57 then some (b - 48 + 52)
  else if b = 43 then some 62
  else if b = 47 then some 63
  else none

/-- Go's base64 decoder ignores `\r` and `\n` bytes wherever they occur. -/
def stripNewlines (l : List Nat) : List Nat :=
  l.filter (fun b => !(b == 10 || b == 13))

/-- Decoding of newline-stripped input in 4-byte quanta, following Go's
`base64.StdEncoding.DecodeString`: the input length must be a multiple of 4;
`=` (byte 61) may pad the last quantum in its last one or two positions, and
nothing may follow a padded quantum; non-canonical trailing bits are
accepted (Go's non-strict mode). Returns the decoded bytes or `none` on
corrupt input. -/
def b64DecodeQuanta : List Nat → Option (List Nat)
  | [] => some []
  | a :: b :: c :: d :: rest =>
    match b64Val a, b64Val b with
    | some va, some vb =>
      if d = 61 then
        if rest ≠ [] then none
        else if c = 61 then some [va * 4 + vb / 16]
        else
          match b64Val c with
          | some vc => some [va * 4 + vb / 16, (vb % 16) * 16 + vc / 4]
          | none => none
      else
        match b64Val c, b64Val d with
        | some vc, some vd =>
          match b64DecodeQuanta rest with
          | some tail =>
            some ((va * 4 + vb / 16) :: ((vb % 16) * 16 + vc / 4) ::
              ((vc % 4) * 64 + vd) :: tail)
          | none => none
        | _, _ => none
    | _, _ => none
  | _ => none

/-- Embedding of `isBase64` (client, lines 335-338): whether
`base64.StdEncoding.DecodeString` succeeds on the content. -/
def isBase64 (content : List Nat) : Bool :=
  (b64DecodeQuanta (stripNewlines content)).isSome

/-- Embedding of the content heuristic in `Upload` (lines 126-137): content
containing a `\n` byte, or failing base64 decoding, is uploaded as its raw
bytes; otherwise the base64-decoded bytes are uploaded (the decode-error
fallback to raw bytes is unreachable because `isBase64` already checked). -/
def decodeUploadContent (content : List Nat) : List Nat :=
  if content.contains 10 || !(isBase64 content) then content
  else
    match b64DecodeQuanta (stripNewlines content) with
    | some decoded => decoded
    | none => content

/-- The two write modes of `files.WriteMode` used by `Upload`. -/
inductive WriteMode where
  | add
  | overwrite
deriving Repr, DecidableEq

/-- Embedding of `files.CommitInfo` as populated by `Upload` (lines 139-147):
target path, write mode, autorename flag and client-modified timestamp. -/
structure CommitInfo where
  path : String
  mode : WriteMode
  autorename : Bool
  clientModified : Int
deriving Repr, DecidableEq

/-- Commit construction in `Upload` (lines 139-147): mode is `overwrite`
exactly when the mode string is `"overwrite"`, else `add`; autorename is
always set to true; client-modified is the current time. -/
def buildCommitInfo (path mode : String) (now : Int) : CommitInfo :=
  { path := path
    mode := if mode = "overwrite" then .overwrite else .add
    autorename := true
    clientModified := now }

/-- The direct-upload size threshold, `150*1024*1024` bytes (line 151). -/
def directUploadLimit : Nat := 150 * 1024 * 1024

/-- Which upload path `Upload` takes and with what arguments: a
single-request direct upload, or the session-based chunked upload. -/
inductive UploadRequest where
  | direct (commit : CommitInfo) (data : List Nat)
  | chunked (commit : CommitInfo) (run : ChunkedRun)
deriving Repr

/-- Whether the session-based chunked path was taken. -/
def UploadRequest.isChunked : UploadRequest → Bool
  | .direct _ _ => false
  | .chunked _ _ => true

/-- The commit metadata carried by either path. -/
def UploadRequest.commit : UploadRequest → CommitInfo
  | .direct ci _ => ci
  | .chunked ci _ => ci

/-- Embedding of `Upload` (lines 125-160): decode the content by the
heuristic, build the commit info, then take the chunked path exactly when
the decoded payload strictly exceeds the threshold, else the direct path
with the same commit info. -/
def Upload (path : String) (content : List Nat) (mode : String) (now : Int) :
    UploadRequest :=
  let data := decodeUploadContent content
  let commitInfo := buildCommitInfo path mode now
  if directUploadLimit < data.length then .chunked commitInfo (uploadLarge data)
  else .direct commitInfo data

/-- Embedding of the mode defaulting in `HandleUpload`
(internal/handlers/handlers.go lines 284-286): an empty mode parameter
becomes `"add"`. -/
def handleUploadMode (mode : String) : String :=
  if mode = "" then "add" else mode

/-! ## Theorems -/

/-- C5: `NeedsRefresh` is true iff the refresh token is non-empty, the expiry
is set, and the current time plus five minutes is strictly past the expiry.
In particular, with a non-empty refresh token and a set expiry: an expiry
more than five minutes in the future gives `false`, and an expiry strictly
within five minutes (or already past) gives `true`. -/
theorem needsRefresh_iff (c : Config) (now : Int) :
    (c.NeedsRefresh now = true ↔
      c.refreshToken ≠ "" ∧ ∃ e, c.expiresAt = some e ∧ e < now + fiveMinutes) ∧
    (∀ e, c.refreshToken ≠ "" → c.expiresAt = some e →
      (now + fiveMinutes < e → c.NeedsRefresh now = false) ∧
      (e < now + fiveMinutes → c.NeedsRefresh now = true)) := by
  constructor
  · constructor
    · intro h
      unfold Config.NeedsRefresh at h
      by_cases hrt : c.refreshToken = ""
      · simp [hrt] at h
      · refine ⟨hrt, ?_⟩
        match hex : c.expiresAt with
        | none => rw [hex] at h; simp [hrt] at h
        | some e =>
          rw [hex] at h
          simp only [hrt, if_neg, ite_false] at h
          exact ⟨e, rfl, by simpa using h⟩
    · rintro ⟨hrt, e, hex, hlt⟩
      unfold Config.NeedsRefresh
      rw [hex]
      simp [hrt, hlt]
  · intro e hrt hex
    constructor
    · intro hgt
      unfold Config.NeedsRefresh
      rw [hex]
      simp only [hrt, ite_false, decide_eq_true_eq]
      simp only [decide_eq_false_iff_not, not_lt]
      omega
    · intro hlt
      unfold Config.NeedsRefresh
      rw [hex]
      simp [hrt, hlt]

/-- Witness for C5: a credential with refresh token "r" and expiry at instant 0
needs refresh at instant 0 (its expiry is within five minutes). -/
theorem needsRefresh_iff_witness :
    Config.NeedsRefresh ⟨"id", "sec", "at", "r", some 0⟩ 0 = true :=
  ((needsRefresh_iff ⟨"id", "sec", "at", "r", some 0⟩ 0).2 0 (by decide) rfl).2
    (by norm_num [fiveMinutes])

/-- C8: `UpdateTokens` always overwrites the access token and expiry, replaces
the refresh token only when the new value is non-empty (keeping the prior one
when it is empty), and never modifies the client id or client secret. -/
theorem updateTokens_spec (c : Config) (accessToken refreshToken : String)
    (expiresAt : Option Int) :
    (c.UpdateTokens accessToken refreshToken expiresAt).accessToken = accessToken ∧
    (c.UpdateTokens accessToken refreshToken expiresAt).expiresAt = expiresAt ∧
    (refreshToken ≠ "" →
      (c.UpdateTokens accessToken refreshToken expiresAt).refreshToken = refreshToken) ∧
    (refreshToken = "" →
      (c.UpdateTokens accessToken refreshToken expiresAt).refreshToken = c.refreshToken) ∧
    (c.UpdateTokens accessToken refreshToken expiresAt).clientID = c.clientID ∧
    (c.UpdateTokens accessToken refreshToken expiresAt).clientSecret = c.clientSecret := by
  refine ⟨rfl, rfl, ?_, ?_, rfl, rfl⟩
  · intro h
    simp [Config.UpdateTokens, h]
  · intro h
    simp [Config.UpdateTokens, h]

/-- Witness for C8: updating with a non-empty refresh token replaces it, and the
client fields survive. -/
theorem updateTokens_spec_witness :
    (Config.UpdateTokens ⟨"i", "s", "a", "r", none⟩ "a2" "r2" (some 5)).refreshToken = "r2" ∧
    (Config.UpdateTokens ⟨"i", "s", "a", "r", none⟩ "a2" "r2" (some 5)).clientID = "i" :=
  ⟨(updateTokens_spec ⟨"i", "s", "a", "r", none⟩ "a2" "r2" (some 5)).2.2.1 (by decide),
   (updateTokens_spec ⟨"i", "s", "a", "r", none⟩ "a2" "r2" (some 5)).2.2.2.2.1⟩

/-- C2: a callback whose `state` differs from the generated state yields the
state-mismatch outcome, answers the HTTP client with status 400 (a client
error), and never reaches the token exchange. -/
theorem callback_state_mismatch (generatedState : String) (r : CallbackRequest)
    (hpath : r.path = "/callback") (hstate : r.state ≠ generatedState) :
    handleCallback generatedState r = .stateMismatch ∧
    (handleCallback generatedState r).httpStatus = some 400 ∧
    (∀ s, (handleCallback generatedState r).httpStatus = some s → isClientError s = true) ∧
    (handleCallback generatedState r).performsExchange = false := by
  have h : handleCallback generatedState r = .stateMismatch := by
    unfold handleCallback
    simp [hpath, hstate]
  refine ⟨h, ?_, ?_, ?_⟩
  · rw [h]; rfl
  · intro s hs
    rw [h] at hs
    simp only [CallbackOutcome.httpStatus, Option.some_inj] at hs
    subst hs
    decide
  · rw [h]; rfl

/-- Witness for C2: state "attacker" against generated state "expected". -/
theorem callback_state_mismatch_witness :
    handleCallback "expected" ⟨"/callback", "attacker", "c", "", ""⟩ = .stateMismatch ∧
    (handleCallback "expected" ⟨"/callback", "attacker", "c", "", ""⟩).performsExchange = false :=
  ⟨(callback_state_mismatch "expected" ⟨"/callback", "attacker", "c", "", ""⟩ rfl
      (by decide)).1,
   (callback_state_mismatch "expected" ⟨"/callback", "attacker", "c", "", ""⟩ rfl
      (by decide)).2.2.2⟩

/-- C4: a callback with matching `state` but no `code` yields an authorization
failure carrying `error_description` when non-empty, else `error` (possibly
empty), answers with status 400 (a client error), and never reaches the token
exchange. -/
theorem callback_missing_code (generatedState : String) (r : CallbackRequest)
    (hpath : r.path = "/callback") (hstate : r.state = generatedState)
    (hcode : r.code = "") :
    handleCallback generatedState r =
      .authFailure (if r.errorDescription ≠ "" then r.errorDescription else r.errorText) ∧
    (handleCallback generatedState r).httpStatus = some 400 ∧
    (∀ s, (handleCallback generatedState r).httpStatus = some s → isClientError s = true) ∧
    (handleCallback generatedState r).performsExchange = false := by
  have h : handleCallback generatedState r =
      .authFailure (if r.errorDescription ≠ "" then r.errorDescription else r.errorText) := by
    unfold handleCallback
    simp [hpath, hstate, hcode]
  refine ⟨h, ?_, ?_, ?_⟩
  · rw [h]; rfl
  · intro s hs
    rw [h] at hs
    simp only [CallbackOutcome.httpStatus, Option.some_inj] at hs
    subst hs
    decide
  · rw [h]; rfl

/-- Witness for C4: matching state, no code, provider sent
`error_description=denied`. -/
theorem callback_missing_code_witness :
    handleCallback "s" ⟨"/callback", "s", "", "access_denied", "denied"⟩ =
      .authFailure "denied" ∧
    (handleCallback "s" ⟨"/callback", "s", "", "access_denied", "denied"⟩).performsExchange
      = false := by
  have h := callback_missing_code "s" ⟨"/callback", "s", "", "access_denied", "denied"⟩
    rfl rfl rfl
  exact ⟨by rw [h.1]; decide, h.2.2.2⟩

/-- C3: the wait terminates with exactly the first arriving one of the three
mutually exclusive events — delivered success, delivered failure, or the
5-minute timeout — mapping success to a returned result, failure to a
returned error, and timeout to the timeout error; and on every one of the
three paths the listener is closed before the flow returns. -/
theorem flow_select_terminates (e : FlowEvent) :
    (awaitFlowOutcome e).listenerClosed = true ∧
    (∀ r, e = .success r → (awaitFlowOutcome e).result = .ok r) ∧
    (∀ msg, e = .failure msg → (awaitFlowOutcome e).result = .error msg) ∧
    (e = .timeout → (awaitFlowOutcome e).result = .error "authentication timeout") := by
  refine ⟨?_, ?_, ?_, ?_⟩
  · cases e <;> rfl
  · intro r h; subst h; rfl
  · intro msg h; subst h; rfl
  · intro h; subst h; rfl

/-- Witness for C3: on the timeout path the flow returns the timeout error
with the listener closed. -/
theorem flow_select_terminates_witness :
    (awaitFlowOutcome .timeout).listenerClosed = true ∧
    (awaitFlowOutcome .timeout).result = .error "authentication timeout" :=
  ⟨(flow_select_terminates .timeout).1, (flow_select_terminates .timeout).2.2.2 rfl⟩

/-- Unfolding `uploadLoop` on an exhausted source: no further appends, the
finish call declares the accumulated offset. -/
theorem uploadLoop_nil (appendOk : Nat → Bool) (i off : Nat) :
    uploadLoop appendOk i off [] =
      { appends := [], finishOffset := some off, result := .ok () } := by
  simp [uploadLoop]

/-- Unfolding `uploadLoop` on a non-empty source when the current append
succeeds. -/
theorem uploadLoop_cons_ok (appendOk : Nat → Bool) (i off : Nat) (b : Nat)
    (rest : List Nat) (hok : appendOk i = true) :
    uploadLoop appendOk i off (b :: rest) =
      { appends := ⟨off, (b :: rest).take chunkSize⟩ ::
          (uploadLoop appendOk (i + 1) (off + ((b :: rest).take chunkSize).length)
            ((b :: rest).drop chunkSize)).appends,
        finishOffset := (uploadLoop appendOk (i + 1)
          (off + ((b :: rest).take chunkSize).length)
          ((b :: rest).drop chunkSize)).finishOffset,
        result := (uploadLoop appendOk (i + 1)
          (off + ((b :: rest).take chunkSize).length)
          ((b :: rest).drop chunkSize)).result } := by
  rw [uploadLoop]
  simp [hok]

/-- Unfolding `uploadLoop` on a non-empty source when the current append
fails: exactly this one (failed) append is issued, there is no finish call,
and the wrapped append error is returned. -/
theorem uploadLoop_cons_fail (appendOk : Nat → Bool) (i off : Nat) (b : Nat)
    (rest : List Nat) (hfail : appendOk i = false) :
    uploadLoop appendOk i off (b :: rest) =
      { appends := [⟨off, (b :: rest).take chunkSize⟩], finishOffset := none,
        result := .error "failed to append chunk" } := by
  rw [uploadLoop]
  simp [hfail]

/-- With every append succeeding, the loop calls finish at the accumulated
offset `off + rem.length`, its appended chunks concatenate to the remaining
source in order, and it returns success. -/
theorem uploadLoop_ok_spec (appendOk : Nat → Bool) (hok : ∀ j, appendOk j = true) :
    ∀ n rem, rem.length ≤ n → ∀ i off,
      (uploadLoop appendOk i off rem).finishOffset = some (off + rem.length) ∧
      ((uploadLoop appendOk i off rem).appends.map AppendCall.chunk).flatten = rem ∧
      (uploadLoop appendOk i off rem).result = .ok () := by
  intro n
  induction n with
  | zero =>
    intro rem hlen i off
    obtain rfl : rem = [] := List.length_eq_zero.mp (Nat.le_zero.mp hlen)
    rw [uploadLoop_nil]
    exact ⟨rfl, rfl, rfl⟩
  | succ n ih =>
    intro rem hlen i off
    cases rem with
    | nil =>
      rw [uploadLoop_nil]
      exact ⟨rfl, rfl, rfl⟩
    | cons b rest =>
      rw [uploadLoop_cons_ok appendOk i off b rest (hok i)]
      have hcs : 0 < chunkSize := by norm_num [chunkSize]
      have hdrop : ((b :: rest).drop chunkSize).length ≤ n := by
        simp only [List.length_drop, List.length_cons]
        simp only [List.length_cons] at hlen
        omega
      obtain ⟨h1, h2, h3⟩ := ih ((b :: rest).drop chunkSize) hdrop (i + 1)
        (off + ((b :: rest).take chunkSize).length)
      refine ⟨?_, ?_, h3⟩
      · rw [h1, Option.some_inj]
        simp only [List.length_take, List.length_drop, List.length_cons]
        omega
      · simp only [List.map_cons, List.flatten_cons, h2]
        exact List.take_append_drop chunkSize (b :: rest)

/-- With every append succeeding, the `k`-th append call declares the offset
equal to the base offset plus the sum of the lengths of all previous chunks,
which is also `off + k * chunkSize` because every chunk before a further one
is full-size. -/
theorem uploadLoop_offsets (appendOk : Nat → Bool) (hok : ∀ j, appendOk j = true) :
    ∀ n rem, rem.length ≤ n → ∀ i off k a,
      (uploadLoop appendOk i off rem).appends[k]? = some a →
      a.offset = off + (((uploadLoop appendOk i off rem).appends.take k).map
        (fun c => c.chunk.length)).sum ∧
      a.offset = off + k * chunkSize := by
  intro n
  induction n with
  | zero =>
    intro rem hlen i off k a h
    obtain rfl : rem = [] := List.length_eq_zero.mp (Nat.le_zero.mp hlen)
    rw [uploadLoop_nil] at h
    simp at h
  | succ n ih =>
    intro rem hlen i off k a h
    cases rem with
    | nil =>
      rw [uploadLoop_nil] at h
      simp at h
    | cons b rest =>
      rw [uploadLoop_cons_ok appendOk i off b rest (hok i)] at h ⊢
      simp only at h ⊢
      have hdrop : ((b :: rest).drop chunkSize).length ≤ n := by
        have hcs : 0 < chunkSize := by norm_num [chunkSize]
        simp only [List.length_drop, List.length_cons]
        simp only [List.length_cons] at hlen
        omega
      cases k with
      | zero =>
        rw [List.getElem?_cons_zero, Option.some_inj] at h
        subst h
        constructor
        · simp
        · simp
      | succ k =>
        rw [List.getElem?_cons_succ] at h
        obtain ⟨h1, h2⟩ := ih ((b :: rest).drop chunkSize) hdrop (i + 1)
          (off + ((b :: rest).take chunkSize).length) k a h
        constructor
        · rw [List.take_succ_cons, List.map_cons, List.sum_cons]
          simp only at h1 ⊢
          omega
        · have hne : (b :: rest).drop chunkSize ≠ [] := by
            intro hnil
            rw [hnil, uploadLoop_nil] at h
            simp at h
          have hgt : chunkSize < (b :: rest).length := by
            by_contra hle
            push_neg at hle
            exact hne (List.drop_eq_nil_of_le hle)
          have hclen : ((b :: rest).take chunkSize).length = chunkSize := by
            simp only [List.length_take]
            omega
          rw [hclen] at h2
          rw [h2, Nat.succ_mul]
          omega

/-- If the first `k` appends succeed and the `k`-th one fails (with `k` within
the range of chunks the source produces), the loop returns the append error,
makes no finish call, and issues exactly the first `k + 1` append calls of
the failure-free run — the `k` successful ones and the failed one, nothing
after it. -/
theorem uploadLoop_fail_spec (appendOk : Nat → Bool) :
    ∀ n rem, rem.length ≤ n → ∀ i off k,
      (∀ j, j < k → appendOk (i + j) = true) →
      appendOk (i + k) = false →
      k < (uploadLoop (fun _ => true) i off rem).appends.length →
      (uploadLoop appendOk i off rem).result = .error "failed to append chunk" ∧
      (uploadLoop appendOk i off rem).finishOffset = none ∧
      (uploadLoop appendOk i off rem).appends =
        (uploadLoop (fun _ => true) i off rem).appends.take (k + 1) := by
  intro n
  induction n with
  | zero =>
    intro rem hlen i off k hbef hfail hk
    obtain rfl : rem = [] := List.length_eq_zero.mp (Nat.le_zero.mp hlen)
    rw [uploadLoop_nil] at hk
    simp at hk
  | succ n ih =>
    intro rem hlen i off k hbef hfail hk
    cases rem with
    | nil =>
      rw [uploadLoop_nil] at hk
      simp at hk
    | cons b rest =>
      rw [uploadLoop_cons_ok (fun _ => true) i off b rest rfl] at hk ⊢
      simp only [List.length_cons] at hk
      have hdrop : ((b :: rest).drop chunkSize).length ≤ n := by
        have hcs : 0 < chunkSize := by norm_num [chunkSize]
        simp only [List.length_drop, List.length_cons]
        simp only [List.length_cons] at hlen
        omega
      cases k with
      | zero =>
        have hfail0 : appendOk i = false := by simpa using hfail
        rw [uploadLoop_cons_fail appendOk i off b rest hfail0]
        refine ⟨rfl, rfl, ?_⟩
        simp
      | succ k =>
        have h0 : appendOk i = true := by simpa using hbef 0 (Nat.succ_pos k)
        rw [uploadLoop_cons_ok appendOk i off b rest h0]
        have hbef' : ∀ j, j < k → appendOk (i + 1 + j) = true := by
          intro j hj
          have hx := hbef (j + 1) (by omega)
          rwa [show i + (j + 1) = i + 1 + j by omega] at hx
        have hfail' : appendOk (i + 1 + k) = false := by
          rwa [show i + 1 + k = i + (k + 1) by omega]
        have hk' : k < (uploadLoop (fun _ => true) (i + 1)
            (off + ((b :: rest).take chunkSize).length)
            ((b :: rest).drop chunkSize)).appends.length := by
          omega
        obtain ⟨e1, e2, e3⟩ := ih ((b :: rest).drop chunkSize) hdrop (i + 1)
          (off + ((b :: rest).take chunkSize).length) k hbef' hfail' hk'
        refine ⟨e1, e2, ?_⟩
        simp only [List.take_succ_cons]
        rw [e3]

/-- The failure-free chunked upload of a source of length at most one chunk
issues a single append of the whole source at offset 0 and finishes at the
source's length. -/
theorem uploadLarge_small (b : Nat) (rest : List Nat)
    (hle : (b :: rest).length ≤ chunkSize) :
    uploadLarge (b :: rest) =
      { appends := [⟨0, b :: rest⟩], finishOffset := some (b :: rest).length,
        result := .ok () } := by
  have htake : (b :: rest).take chunkSize = b :: rest := List.take_of_length_le hle
  have hdrop : (b :: rest).drop chunkSize = [] := List.drop_eq_nil_of_le hle
  show uploadLoop (fun _ => true) 0 0 (b :: rest) = _
  rw [uploadLoop_cons_ok (fun _ => true) 0 0 b rest rfl, htake, hdrop, uploadLoop_nil]
  simp

/-- C1: for every byte source, the failure-free chunked upload issues its
appends strictly in source order (their chunks concatenate back to the
source), the `k`-th append declares offset equal to the sum of the lengths
of all previously appended chunks, which is `k * chunkSize` (0, C, 2C, ...),
and the finish call declares exactly the source's length — covering a source
of size 0 (start/finish with no appends), below, at, or above one chunk. -/
theorem uploadLarge_offsets (data : List Nat) :
    (uploadLarge data).finishOffset = some data.length ∧
    ((uploadLarge data).appends.map AppendCall.chunk).flatten = data ∧
    (data = [] → (uploadLarge data).appends = []) ∧
    (∀ k a, (uploadLarge data).appends[k]? = some a →
      a.offset = (((uploadLarge data).appends.take k).map
        (fun c => c.chunk.length)).sum ∧
      a.offset = k * chunkSize) := by
  have hok : ∀ j, (fun _ : Nat => true) j = true := fun _ => rfl
  obtain ⟨h1, h2, h3⟩ := uploadLoop_ok_spec (fun _ => true) hok data.length data le_rfl 0 0
  refine ⟨by simpa using h1, h2, ?_, ?_⟩
  · rintro rfl
    show (uploadLoop (fun _ => true) 0 0 []).appends = []
    rw [uploadLoop_nil]
  · intro k a h
    obtain ⟨g1, g2⟩ := uploadLoop_offsets (fun _ => true) hok data.length data le_rfl 0 0 k a h
    exact ⟨by simpa using g1, by simpa using g2⟩

/-- Witness for C1: uploading the one-byte source `[7]` makes its single
append at offset 0 (`0 * chunkSize`) and finishes at offset 1. -/
theorem uploadLarge_offsets_witness :
    (uploadLarge [7]).finishOffset = some 1 ∧
    (AppendCall.mk 0 [7]).offset = 0 * chunkSize := by
  have hget : (uploadLarge [7]).appends[0]? = some ⟨0, [7]⟩ := by
    rw [uploadLarge_small 7 [] (by norm_num [chunkSize])]
    rfl
  exact ⟨(uploadLarge_offsets [7]).1,
    ((uploadLarge_offsets [7]).2.2.2 0 ⟨0, [7]⟩ hget).2⟩

/-- C7: if the first `k` appends succeed and append `k` fails, the chunked
upload returns the append error to the caller, makes no finish call, and
issues no appends beyond the failed one: the issued appends are exactly the
first `k + 1` of the failure-free run. No retry is attempted (the loop has
no retry path). -/
theorem chunked_append_failure (appendOk : Nat → Bool) (data : List Nat) (k : Nat)
    (hbefore : ∀ j, j < k → appendOk j = true)
    (hfail : appendOk k = false)
    (hk : k < (uploadLarge data).appends.length) :
    (runChunked appendOk data).result = .error "failed to append chunk" ∧
    (runChunked appendOk data).finishOffset = none ∧
    (runChunked appendOk data).appends = (uploadLarge data).appends.take (k + 1) ∧
    (runChunked appendOk data).appends.length = k + 1 := by
  have hb : ∀ j, j < k → appendOk (0 + j) = true := by
    intro j hj
    simpa using hbefore j hj
  have hf : appendOk (0 + k) = false := by simpa using hfail
  have hk0 : k < (uploadLoop (fun _ => true) 0 0 data).appends.length := hk
  obtain ⟨e1, e2, e3⟩ := uploadLoop_fail_spec appendOk data.length data le_rfl 0 0 k hb hf hk0
  refine ⟨e1, e2, e3, ?_⟩
  show (uploadLoop appendOk 0 0 data).appends.length = k + 1
  rw [e3, List.length_take]
  omega

/-- Witness for C7: with every append failing, uploading `[7]` returns the
append error and makes no finish call. -/
theorem chunked_append_failure_witness :
    (runChunked (fun _ => false) [7]).result = .error "failed to append chunk" ∧
    (runChunked (fun _ => false) [7]).finishOffset = none := by
  have hk : 0 < (uploadLarge [7]).appends.length := by
    rw [uploadLarge_small 7 [] (by norm_num [chunkSize])]
    simp
  have h := chunked_append_failure (fun _ => false) [7] 0
    (fun j hj => absurd hj (Nat.not_lt_zero j)) rfl hk
  exact ⟨h.1, h.2.1⟩

/-- C6: the session-based chunked path is taken exactly when the (decoded)
payload strictly exceeds 150 MiB; a payload at or below the threshold is
sent as a single direct upload carrying the same commit info (path, mode,
autorename, client-modified) and no transfer session, and both paths carry
the commit info built once before the branch. -/
theorem upload_threshold (path : String) (content : List Nat) (mode : String)
    (now : Int) :
    ((Upload path content mode now).isChunked = true ↔
      150 * 1024 * 1024 < (decodeUploadContent content).length) ∧
    (Upload path content mode now).commit = buildCommitInfo path mode now ∧
    ((decodeUploadContent content).length ≤ 150 * 1024 * 1024 →
      Upload path content mode now =
        .direct (buildCommitInfo path mode now) (decodeUploadContent content)) ∧
    (150 * 1024 * 1024 < (decodeUploadContent content).length →
      Upload path content mode now =
        .chunked (buildCommitInfo path mode now)
          (uploadLarge (decodeUploadContent content))) := by
  have hdl : directUploadLimit = 150 * 1024 * 1024 := rfl
  simp only [Upload]
  by_cases h : directUploadLimit < (decodeUploadContent content).length
  · rw [if_pos h]
    rw [hdl] at h
    refine ⟨?_, rfl, ?_, fun _ => rfl⟩
    · exact ⟨fun _ => h, fun _ => rfl⟩
    · intro hle
      exact absurd h (not_lt.mpr hle)
  · rw [if_neg h]
    rw [hdl] at h
    refine ⟨?_, rfl, fun _ => rfl, ?_⟩
    · constructor
      · intro hf
        simp [UploadRequest.isChunked] at hf
      · intro hlt
        exact absurd hlt h
    · intro hlt
      exact absurd hlt h

/-- Witness for C6: a 2-byte payload is at or below the threshold and is sent
as a direct upload with the same commit info. -/
theorem upload_threshold_witness :
    Upload "/a.txt" [1, 2] "add" 0 =
      .direct (buildCommitInfo "/a.txt" "add" 0) (decodeUploadContent [1, 2]) :=
  (upload_threshold "/a.txt" [1, 2] "add" 0).2.2.1 (by decide)

/-- C9: content containing a newline byte, or failing standard base64
decoding, is uploaded as its raw bytes; newline-free content that decodes as
base64 is uploaded as the decoded bytes. Consequently legitimate raw text
that happens to be newline-free valid base64 — such as the bytes of
`"abcd"` — is decoded before upload rather than uploaded verbatim. -/
theorem upload_content_heuristic (content : List Nat) :
    ((content.contains 10 = true ∨ isBase64 content = false) →
      decodeUploadContent content = content) ∧
    (∀ d, content.contains 10 = false →
      b64DecodeQuanta (stripNewlines content) = some d →
      decodeUploadContent content = d) ∧
    (decodeUploadContent [97, 98, 99, 100] = [105, 183, 29] ∧
      ([97, 98, 99, 100] : List Nat) ≠ [105, 183, 29] ∧
      ([97, 98, 99, 100] : List Nat).contains 10 = false ∧
      isBase64 [97, 98, 99, 100] = true) := by
  refine ⟨?_, ?_, by decide⟩
  · intro h
    unfold decodeUploadContent
    rcases h with h | h
    · rw [h]
      simp
    · rw [h]
      simp
  · intro d h10 hdec
    have hb64 : isBase64 content = true := by
      unfold isBase64
      rw [hdec]
      rfl
    have hcond : (content.contains 10 || !(isBase64 content)) = false := by
      rw [h10, hb64]
      rfl
    unfold decodeUploadContent
    rw [hcond]
    simp only [Bool.false_eq_true, if_false]
    rw [hdec]

/-- Witness for C9: the newline-free raw text `"abcd"` (bytes 97 98 99 100)
is valid base64 and is uploaded as its decoded bytes 105 183 29, not
verbatim. -/
theorem upload_content_heuristic_witness :
    decodeUploadContent [97, 98, 99, 100] = [105, 183, 29] :=
  (upload_content_heuristic [97, 98, 99, 100]).2.1 [105, 183, 29]
    (by decide) (by decide)

/-- C10: every commit is built with autorename true and client-modified set
to the current time; the write mode is `overwrite` exactly when the
caller-supplied mode string is `"overwrite"`, and any other string —
including the handler's default `"add"` for an empty mode, and unrecognized
strings — yields `add`. -/
theorem upload_commit_construction (path mode : String) (now : Int) :
    (buildCommitInfo path mode now).autorename = true ∧
    (buildCommitInfo path mode now).clientModified = now ∧
    ((buildCommitInfo path mode now).mode = WriteMode.overwrite ↔
      mode = "overwrite") ∧
    (mode ≠ "overwrite" → (buildCommitInfo path mode now).mode = WriteMode.add) ∧
    handleUploadMode "" = "add" ∧
    (buildCommitInfo path (handleUploadMode "") now).mode = WriteMode.add := by
  refine ⟨rfl, rfl, ?_, ?_, rfl, by simp [handleUploadMode, buildCommitInfo]⟩
  · unfold buildCommitInfo
    by_cases h : mode = "overwrite"
    · simp [h]
    · simp [h]
  · intro h
    simp [buildCommitInfo, h]

/-- Witness for C10: an unrecognized mode string yields write mode `add`,
with autorename true. -/
theorem upload_commit_construction_witness :
    (buildCommitInfo "/p" "weird" 42).mode = WriteMode.add ∧
    (buildCommitInfo "/p" "weird" 42).autorename = true :=
  ⟨(upload_commit_construction "/p" "weird" 42).2.2.2.1 (by decide),
   (upload_commit_construction "/p" "weird" 42).1⟩

end DropboxMCP
